import Mathlib

/-!
Verification of the content-acquisition pipeline in `src/Agent/search_service.py`.

The pipeline is shallowly embedded: all external effects (the Serper search
API, the Jina reader proxy, direct HTTP fetches, and the LLM
text-understanding service) are supplied as explicit oracles, indexed by
attempt number.  Python strings are modelled as Lean `String`/`List Char`;
the regular-expression substitutions of the source are modelled by
executable character scanners with the same matching semantics; `json.loads`
is modelled by an executable JSON parser (`parseJsonL`) restricted to
integer numerals and to the standard one-character escapes — the extractor
schema only uses booleans, strings and string arrays, so this restriction
does not affect any claim.
-/

namespace SearchService

set_option maxRecDepth 400000

set_option maxHeartbeats 1000000

/-- Whitespace as used by Python's `str.strip()` and the `\s` regex class
(ASCII range). -/
def isWs (c : Char) : Bool :=
  c == ' ' || c == '\t' || c == '\n' || c == '\r' || c == '\x0b' || c == '\x0c'

/-- Whitespace accepted between tokens by `json.loads` (RFC 8259). -/
def jsonWs (c : Char) : Bool :=
  c == ' ' || c == '\t' || c == '\n' || c == '\r'

/-- Python `str.strip()` on a character list. -/
def pyStripL (cs : List Char) : List Char :=
  (((cs.dropWhile isWs).reverse).dropWhile isWs).reverse

/-- JSON values, as produced by `json.loads`.  Objects keep insertion order
(Python dicts preserve it); duplicate keys are resolved at parse time. -/
inductive Json where
  | null
  | bool (b : Bool)
  | num (n : Int)
  | str (s : String)
  | arr (elems : List Json)
  | obj (fields : List (String × Json))

/-- Python truthiness (`if result:`, `if not value:`) of a parsed JSON
value. -/
def jsonTruthy : Json → Bool
  | Json.null => false
  | Json.bool b => b
  | Json.num n => n != 0
  | Json.str s => !(s == "")
  | Json.arr [] => false
  | Json.arr (_ :: _) => true
  | Json.obj [] => false
  | Json.obj (_ :: _) => true

/-- Dictionary lookup (`d[k]` / `d.get(k)`); duplicate keys were already
merged by the parser, so the first hit is the dictionary entry. -/
def lookupField (kvs : List (String × Json)) (k : String) : Option Json :=
  match kvs with
  | [] => none
  | p :: rest => if p.1 == k then some p.2 else lookupField rest k

/-- Python `d.get(k, dflt)`. -/
def getDField (kvs : List (String × Json)) (k : String) (dflt : Json) : Json :=
  (lookupField kvs k).getD dflt

/-- Field access on an arbitrary JSON value (none when not an object). -/
def getField (j : Json) (k : String) : Option Json :=
  match j with
  | Json.obj kvs => lookupField kvs k
  | _ => none

/-- Python dict insertion for the parser: a repeated key keeps its original
position and takes the latest value; a fresh key is appended. -/
def updateField (kvs : List (String × Json)) (k : String) (v : Json) :
    List (String × Json) :=
  if kvs.any (fun p => p.1 == k) then
    kvs.map (fun p => if p.1 == k then (k, v) else p)
  else kvs ++ [(k, v)]

/-- JSON string escapes handled by the model (`\uXXXX` is not modelled; no
input in this development uses it). -/
def escChar : Char → Option Char
  | 'n' => some '\n'
  | 't' => some '\t'
  | 'r' => some '\r'
  | 'b' => some '\x08'
  | 'f' => some '\x0c'
  | '/' => some '/'
  | '"' => some '"'
  | '\\' => some '\\'
  | _ => none

/-- Body of a JSON string literal, after the opening quote: returns the
decoded characters and the remainder after the closing quote. -/
def parseStrAux : List Char → Option (List Char × List Char)
  | [] => none
  | '"' :: rest => some ([], rest)
  | '\\' :: rest =>
    match rest with
    | [] => none
    | e :: rest' =>
      match escChar e with
      | none => none
      | some c =>
        match parseStrAux rest' with
        | none => none
        | some (s, r) => some (c :: s, r)
  | c :: rest =>
    match parseStrAux rest with
    | none => none
    | some (s, r) => some (c :: s, r)

/-- Decimal digits to a natural number. -/
def digitsToNat (ds : List Char) : Nat :=
  ds.foldl (fun acc c => acc * 10 + (c.toNat - 48)) 0

/-- Parser mode: a single value, or the element/member loop of a composite
that has at least one entry. -/
inductive PMode where
  | val
  | arrLoop (acc : List Json)
  | objLoop (acc : List (String × Json))

/-- Fuel-indexed recursive-descent JSON parser (model of `json.loads`;
numbers restricted to integers: a fraction or exponent fails the parse). -/
def parseF : Nat → PMode → List Char → Option (Json × List Char)
  | 0, _, _ => none
  | fuel + 1, PMode.val, cs0 =>
    let cs := cs0.dropWhile jsonWs
    match cs with
    | [] => none
    | c :: rest =>
      if "true".toList.isPrefixOf cs then some (Json.bool true, cs.drop 4)
      else if "false".toList.isPrefixOf cs then some (Json.bool false, cs.drop 5)
      else if "null".toList.isPrefixOf cs then some (Json.null, cs.drop 4)
      else if c == '"' then
        match parseStrAux rest with
        | some (s, r) => some (Json.str (String.mk s), r)
        | none => none
      else if c == '\x7b' then
        match rest.dropWhile jsonWs with
        | '\x7d' :: r2 => some (Json.obj [], r2)
        | cs2 => parseF fuel (PMode.objLoop []) cs2
      else if c == '[' then
        match rest.dropWhile jsonWs with
        | ']' :: r2 => some (Json.arr [], r2)
        | cs2 => parseF fuel (PMode.arrLoop []) cs2
      else if c == '-' || c.isDigit then
        let neg := c == '-'
        let csn := if neg then rest else cs
        let ds := csn.takeWhile Char.isDigit
        let r := csn.dropWhile Char.isDigit
        if ds.isEmpty then none
        else
          match r with
          | '.' :: _ => none
          | 'e' :: _ => none
          | 'E' :: _ => none
          | _ =>
            some (Json.num (if neg then -(digitsToNat ds : Int) else (digitsToNat ds : Int)), r)
      else none
  | fuel + 1, PMode.arrLoop acc, cs =>
    match parseF fuel PMode.val cs with
    | none => none
    | some (v, r) =>
      match r.dropWhile jsonWs with
      | ']' :: r2 => some (Json.arr (acc ++ [v]), r2)
      | ',' :: r2 => parseF fuel (PMode.arrLoop (acc ++ [v])) r2
      | _ => none
  | fuel + 1, PMode.objLoop acc, cs0 =>
    let cs := cs0.dropWhile jsonWs
    match cs with
    | '"' :: rest =>
      match parseStrAux rest with
      | none => none
      | some (k, r1) =>
        match r1.dropWhile jsonWs with
        | ':' :: r2 =>
          match parseF fuel PMode.val r2 with
          | none => none
          | some (v, r3) =>
            match r3.dropWhile jsonWs with
            | '\x7d' :: r4 => some (Json.obj (updateField acc (String.mk k) v), r4)
            | ',' :: r4 => parseF fuel (PMode.objLoop (updateField acc (String.mk k) v)) r4
            | _ => none
        | _ => none
    | _ => none

/-- Model of `json.loads`: parse one value and require only whitespace after it. -/
def parseJsonL (cs : List Char) : Option Json :=
  match parseF (2 * cs.length + 4) PMode.val cs with
  | some (j, rest) => if (rest.dropWhile jsonWs).isEmpty then some j else none
  | none => none

/-! ### The regex substitutions of `clean_and_parse_json`

`re.sub(r'<think>.*?</think>', '', raw, flags=re.DOTALL)` followed by
`re.sub(r'^```json\s*', '', text, flags=re.MULTILINE)` and
`re.sub(r'^```\s*', '', text, flags=re.MULTILINE)`, then `str.strip()`.
Each substitution is modelled as a left-to-right scanner; the MULTILINE `^`
anchor is carried as a Boolean flag (true at the start of the text and
right after a newline). -/

/-- Scan for the first `</think>`, returning the remainder after it
(the lazy `.*?` of the regex matches up to the first closing marker). -/
def findCloseThink : List Char → Option (List Char)
  | [] => none
  | c :: cs =>
    if "</think>".toList.isPrefixOf (c :: cs) then some ((c :: cs).drop 8)
    else findCloseThink cs

/-- Model of `re.sub(r'<think>.*?</think>', '', raw, flags=re.DOTALL)`.  An opening
marker with no closing marker does not match and is kept verbatim. -/
def removeThinkF : Nat → List Char → List Char
  | 0, cs => cs
  | fuel + 1, cs =>
    match cs with
    | [] => []
    | c :: cs' =>
      if "<think>".toList.isPrefixOf (c :: cs') then
        match findCloseThink ((c :: cs').drop 7) with
        | some rest => removeThinkF fuel rest
        | none => c :: removeThinkF fuel cs'
      else c :: removeThinkF fuel cs'

/-- Model of `re.sub(r'^```json\s*', '', text, flags=re.MULTILINE)`.  `b` is true
when the current position is at a line start; after a removal the next
position is at a line start exactly when the last whitespace character
eaten by the greedy `\s*` was a newline. -/
def scanJsonFenceF : Nat → Bool → List Char → List Char
  | 0, _, cs => cs
  | fuel + 1, b, cs =>
    match cs with
    | [] => []
    | c :: cs' =>
      if b && "```json".toList.isPrefixOf (c :: cs') then
        let rest := (c :: cs').drop 7
        scanJsonFenceF fuel ((rest.takeWhile isWs).getLast? == some '\n')
          (rest.dropWhile isWs)
      else c :: scanJsonFenceF fuel (c == '\n') cs'

/-- Model of `re.sub(r'^```\s*', '', text, flags=re.MULTILINE)`, same conventions. -/
def scanFenceF : Nat → Bool → List Char → List Char
  | 0, _, cs => cs
  | fuel + 1, b, cs =>
    match cs with
    | [] => []
    | c :: cs' =>
      if b && "```".toList.isPrefixOf (c :: cs') then
        let rest := (c :: cs').drop 3
        scanFenceF fuel ((rest.takeWhile isWs).getLast? == some '\n')
          (rest.dropWhile isWs)
      else c :: scanFenceF fuel (c == '\n') cs'

/-- Model of `clean_and_parse_json` (search_service.py:98-113): strip reasoning
markers and leading code-fence artifacts, trim, then `json.loads`
(a `JSONDecodeError` yields `None`). -/
def clean_and_parse_json (raw : String) : Option Json :=
  let l0 := raw.toList
  let l1 := removeThinkF l0.length l0
  let l2 := scanJsonFenceF (l1.length + 1) true l1
  let l3 := scanFenceF (l2.length + 1) true l2
  parseJsonL (pyStripL l3)

/-! ### HTML / markdown cleaning used by the fetcher -/

/-- Scan for the first occurrence of `pat` (any characters may precede it,
matching a lazy `.*?` under DOTALL), returning the remainder after it. -/
def dropThrough (pat : List Char) : List Char → Option (List Char)
  | [] => none
  | c :: cs =>
    if pat.isPrefixOf (c :: cs) then some ((c :: cs).drop pat.length)
    else dropThrough pat cs

/-- Model of `re.sub(openTag + r'.*?>.*?' + closeTag, '', text, flags=re.DOTALL)`:
model of the `<script.*?>.*?</script>` and `<style.*?>.*?</style>`
removals.  A position where the full pattern cannot complete does not
match, and scanning resumes one character later. -/
def removeScriptLikeF (openTag closeTag : List Char) : Nat → List Char → List Char
  | 0, cs => cs
  | fuel + 1, cs =>
    match cs with
    | [] => []
    | c :: cs' =>
      if openTag.isPrefixOf (c :: cs') then
        match dropThrough ['>'] ((c :: cs').drop openTag.length) with
        | some r1 =>
          match dropThrough closeTag r1 with
          | some r2 => removeScriptLikeF openTag closeTag fuel r2
          | none => c :: removeScriptLikeF openTag closeTag fuel cs'
        | none => c :: removeScriptLikeF openTag closeTag fuel cs'
      else c :: removeScriptLikeF openTag closeTag fuel cs'

/-- Model of `re.sub(r'<!--.*?-->', '', text, flags=re.DOTALL)`. -/
def removeCommentsF : Nat → List Char → List Char
  | 0, cs => cs
  | fuel + 1, cs =>
    match cs with
    | [] => []
    | c :: cs' =>
      if "<!--".toList.isPrefixOf (c :: cs') then
        match dropThrough "-->".toList ((c :: cs').drop 4) with
        | some r => removeCommentsF fuel r
        | none => c :: removeCommentsF fuel cs'
      else c :: removeCommentsF fuel cs'

/-- Model of `re.sub(r'<[^>]+>', '', text)`: at a `<`, at least one non-`>`
character followed by `>` is removed; `<>` or an unclosed `<` is kept. -/
def removeTagsF : Nat → List Char → List Char
  | 0, cs => cs
  | fuel + 1, cs =>
    match cs with
    | [] => []
    | '<' :: cs' =>
      match cs' with
      | '>' :: _ => '<' :: removeTagsF fuel cs'
      | _ =>
        match dropThrough ['>'] cs' with
        | some r => removeTagsF fuel r
        | none => '<' :: removeTagsF fuel cs'
    | c :: cs' => c :: removeTagsF fuel cs'

/-- Scan for the first `](` not preceded by a newline (the lazy `.*?` of
the image regex cannot cross a line break), returning the remainder. -/
def findCloseBracket : List Char → Option (List Char)
  | [] => none
  | ']' :: '(' :: cs => some cs
  | '\n' :: _ => none
  | _ :: cs => findCloseBracket cs

/-- Scan for the first `)` not preceded by a newline. -/
def findCloseParen : List Char → Option (List Char)
  | [] => none
  | ')' :: cs => some cs
  | '\n' :: _ => none
  | _ :: cs => findCloseParen cs

/-- Model of `re.sub(r'!\[.*?\]\(.*?\)', '', content)`: markdown image embeds
(without DOTALL, so a match never spans a newline). -/
def removeImagesF : Nat → List Char → List Char
  | 0, cs => cs
  | fuel + 1, cs =>
    match cs with
    | [] => []
    | '!' :: '[' :: rest =>
      match findCloseBracket rest with
      | some r1 =>
        match findCloseParen r1 with
        | some r2 => removeImagesF fuel r2
        | none => '!' :: removeImagesF fuel ('[' :: rest)
      | none => '!' :: removeImagesF fuel ('[' :: rest)
    | c :: cs' => c :: removeImagesF fuel cs'

/-- Model of `re.sub(r'\n\s*\n', '\n\n', text)`: a newline, a greedy whitespace run,
and a final newline collapse to a blank line.  Backtracking of the greedy
`\s*` makes the final newline the last newline of the run. -/
def collapseBlankF : Nat → List Char → List Char
  | 0, cs => cs
  | fuel + 1, cs =>
    match cs with
    | [] => []
    | '\n' :: rest =>
      let w := rest.takeWhile isWs
      if w.contains '\n' then
        '\n' :: '\n' :: collapseBlankF fuel
          ((w.reverse.takeWhile (fun c => !(c == '\n'))).reverse ++ rest.drop w.length)
      else '\n' :: collapseBlankF fuel rest
    | c :: cs' => c :: collapseBlankF fuel cs'

/-- Model of `_clean_html` (search_service.py:116-133): drop script/style blocks,
comments and tags, collapse blank-line runs, and strip. -/
def cleanHtml (s : String) : String :=
  let l0 := s.toList
  let l1 := removeScriptLikeF "<script".toList "</script>".toList l0.length l0
  let l2 := removeScriptLikeF "<style".toList "</style>".toList l1.length l1
  let l3 := removeCommentsF l2.length l2
  let l4 := removeTagsF l3.length l3
  let l5 := collapseBlankF l4.length l4
  String.mk (pyStripL l5)

/-- Cleaning applied to a 200 response of the Jina reader proxy
(search_service.py:148-152): strip image embeds, collapse blank lines
(no final `strip`). -/
def jinaClean (s : String) : String :=
  let l0 := s.toList
  let l1 := removeImagesF l0.length l0
  String.mk (collapseBlankF l1.length l1)

/-! ### `ai_extract_json` (search_service.py:36-96)

The LLM call of each attempt is an oracle `Nat → Except Unit String`:
`Except.error` models an exception raised by the service call (network
error, timeout, or a null `message.content`), `Except.ok raw` the raw
response text. -/

/-- Outcome of one attempt of the retry loop. -/
inductive AttemptResult where
  | retry
  | invalid
  | success (j : Json)

/-- One iteration of the `for attempt in range(max_retries + 1)` loop:
  * a raised exception is caught and retried;
  * a parse failure leaves `result` falsy and falls through to retry;
  * a parsed falsy value (`None`/`{}`/`[]`/`0`/`""`/`false`) also retries;
  * a truthy non-dict makes `result.get("valid", True)` raise an
    `AttributeError`, caught by the same handler, hence a retry;
  * a truthy dict whose `valid` entry (defaulting to `True`) is falsy
    returns `None` at once; otherwise the dict is returned. -/
def attemptStep (resp : Except Unit String) : AttemptResult :=
  match resp with
  | Except.error _ => AttemptResult.retry
  | Except.ok raw =>
    match clean_and_parse_json raw with
    | none => AttemptResult.retry
    | some j =>
      if jsonTruthy j then
        match j with
        | Json.obj kvs =>
          if jsonTruthy (getDField kvs "valid" (Json.bool true)) then
            AttemptResult.success (Json.obj kvs)
          else AttemptResult.invalid
        | _ => AttemptResult.retry
      else AttemptResult.retry

/-- The retry loop, returning the result and the number of service calls
made.  `attempt` is the index of the next attempt, `remaining` the number
of loop iterations left (`max_retries + 1` at the start). -/
def aiExtractGo (responses : Nat → Except Unit String) :
    Nat → Nat → Option Json × Nat
  | _, 0 => (none, 0)
  | attempt, r + 1 =>
    match attemptStep (responses attempt) with
    | AttemptResult.success j => (some j, 1)
    | AttemptResult.invalid => (none, 1)
    | AttemptResult.retry =>
      let p := aiExtractGo responses (attempt + 1) r
      (p.1, p.2 + 1)

/-- Model of `ai_extract_json(content, url, max_retries)`: the returned record, or
`None` after the retry budget is exhausted.  The cleaned page content and
the url only shape the prompt sent to the oracle, so they do not appear
here. -/
def ai_extract_json (responses : Nat → Except Unit String) (maxRetries : Nat) :
    Option Json :=
  (aiExtractGo responses 0 (maxRetries + 1)).1

/-- Number of calls `ai_extract_json` makes to the text-understanding
service. -/
def ai_extract_calls (responses : Nat → Except Unit String) (maxRetries : Nat) :
    Nat :=
  (aiExtractGo responses 0 (maxRetries + 1)).2

/-! ### `fetch_jina_content` (search_service.py:135-207) -/

/-- An HTTP response; for the direct tier `text` is the body as re-decoded
after `res.encoding = res.apparent_encoding`. -/
structure HttpResp where
  status : Nat
  text : String

/-- Per-candidate oracles: `jina i` / `direct i` give the outcome of the
`i`-th request of each tier (`Except.error` = raised exception), `ai i`
the outcome of the `i`-th LLM call. -/
structure Env where
  jina : Nat → Except Unit HttpResp
  direct : Nat → Except Unit HttpResp
  ai : Nat → Except Unit String

/-- The statuses the primary tier retries on (search_service.py:154). -/
def retryStatus (s : Nat) : Bool :=
  s == 429 || s == 500 || s == 502 || s == 503 || s == 504

/-- Primary (Jina reader-proxy) tier: result and number of requests made.
On 200 the cleaned text is returned; on a retryable status the loop
continues after a backoff; on any other status the tier is abandoned at
once (`break`).  A raised exception either continues the loop (when
attempts remain) or lets it end; both resume at the next iteration, which
the recursion models uniformly. -/
def jinaLoop (env : Env) : Nat → Nat → Option String × Nat
  | _, 0 => (none, 0)
  | attempt, r + 1 =>
    match env.jina attempt with
    | Except.error _ =>
      let p := jinaLoop env (attempt + 1) r
      (p.1, p.2 + 1)
    | Except.ok resp =>
      if resp.status == 200 then (some (jinaClean resp.text), 1)
      else if retryStatus resp.status then
        let p := jinaLoop env (attempt + 1) r
        (p.1, p.2 + 1)
      else (none, 1)

/-- Fallback (direct fetch) tier, 2 attempts: 200 with a body of at least
500 characters succeeds (cleaned through `_clean_html`); a shorter body
retries; 403 abandons the tier (`break`); any other status sleeps and
retries; an exception is caught and retries. -/
def directLoop (env : Env) : Nat → Nat → Option String × Nat
  | _, 0 => (none, 0)
  | attempt, r + 1 =>
    match env.direct attempt with
    | Except.error _ =>
      let p := directLoop env (attempt + 1) r
      (p.1, p.2 + 1)
    | Except.ok res =>
      if res.status == 200 then
        if res.text.length < 500 then
          let p := directLoop env (attempt + 1) r
          (p.1, p.2 + 1)
        else (some (cleanHtml res.text), 1)
      else if res.status == 403 then (none, 1)
      else
        let p := directLoop env (attempt + 1) r
        (p.1, p.2 + 1)

/-- Observable outcome of `fetch_jina_content`: the content (if any) and
how many requests each tier issued. -/
structure FetchOut where
  result : Option String
  jinaCalls : Nat
  directCalls : Nat

/-- Model of `fetch_jina_content(link, max_retries)`: primary tier first; when it
produces nothing, the fallback tier runs.  The link itself only shapes the
request URLs, which the oracles abstract. -/
def fetch_jina_content (env : Env) (link : String) (maxRetries : Nat) : FetchOut :=
  let p1 := jinaLoop env 0 (maxRetries + 1)
  match p1.1 with
  | some c => { result := some c, jinaCalls := p1.2, directCalls := 0 }
  | none =>
    let p2 := directLoop env 0 2
    { result := p2.1, jinaCalls := p1.2, directCalls := p2.2 }

/-! ### `process_single_search_result` (search_service.py:210-248) -/

/-- The blocklist (search_service.py:14-21). -/
def BLOCKED_SITES : List String :=
  ["youtube.com", "youtu.be",
   "twitter.com", "x.com",
   "facebook.com", "instagram.com",
   "linkedin.com", "pinterest.com",
   "tiktok.com", "douyin.com",
   "bilibili.com"]

/-- Substring containment (Python `pat in hay`). -/
def containsSub (hay pat : List Char) : Bool :=
  match hay with
  | [] => pat.isEmpty
  | _ :: rest => pat.isPrefixOf hay || containsSub rest pat

/-- Model of `any(blocked in link for blocked in BLOCKED_SITES)`. -/
def blockedLink (link : String) : Bool :=
  BLOCKED_SITES.any (fun b => containsSub link.toList b.toList)

/-- One search result as consumed by the worker: `item.get('title')`,
`item.get('link')`, `item.get('snippet')` may each be absent. -/
structure Item where
  title : Option String
  link : Option String
  snippet : Option String

/-- Model of `structured_data["source_url"] = link` when the key is absent
(search_service.py:243-244); an extractor-provided value is kept as is. -/
def insertSourceUrl (j : Json) (link : String) : Json :=
  match j with
  | Json.obj kvs =>
    match lookupField kvs "source_url" with
    | some _ => Json.obj kvs
    | none => Json.obj (kvs ++ [("source_url", Json.str link)])
  | other => other

/-- Observable outcome of one worker task: `Except.error` models an
uncaught exception escaping the worker (to be caught at the task boundary
by the coordinator), `Except.ok none` "no record", `Except.ok (some j)` a
produced record.  `aiCalls` counts the LLM calls the task made. -/
structure ProcessResult where
  out : Except Unit (Option Json)
  aiCalls : Nat

/-- Model of `process_single_search_result(idx, item)`.
  * A missing link makes `blocked in link` raise a `TypeError`
    (`argument of type 'NoneType' is not iterable`), which escapes the
    worker — modelled as `Except.error`.
  * A blocked link returns `None` before any network call.
  * A missing title then makes `title[:20]` in the progress print raise a
    `TypeError`, which also escapes the worker.
  * Fetched content that is falsy (`if not content`) or shorter than 300
    characters returns `None` without calling the extractor.
  * Otherwise the extractor runs with `max_retries = 2`; a truthy record
    gets `source_url` defaulted from the link when absent. -/
def process_single_search_result (env : Env) (idx : Nat) (item : Item) :
    ProcessResult :=
  match item.link with
  | none => { out := Except.error (), aiCalls := 0 }
  | some link =>
    if blockedLink link then { out := Except.ok none, aiCalls := 0 }
    else
      match item.title with
      | none => { out := Except.error (), aiCalls := 0 }
      | some _ =>
        match (fetch_jina_content env link 2).result with
        | none => { out := Except.ok none, aiCalls := 0 }
        | some content =>
          if content = "" then { out := Except.ok none, aiCalls := 0 }
          else if content.length < 300 then { out := Except.ok none, aiCalls := 0 }
          else
            let p := aiExtractGo env.ai 0 3
            match p.1 with
            | some j =>
              if jsonTruthy j then
                { out := Except.ok (some (insertSourceUrl j link)), aiCalls := p.2 }
              else { out := Except.ok none, aiCalls := p.2 }
            | none => { out := Except.ok none, aiCalls := p.2 }

/-! ### `search_for_keyword` (search_service.py:250-307) -/

/-- The search API's parsed JSON body, reduced to the only field the code
reads: the `organic` result list (`none` when the key is absent). -/
structure SearchData where
  organic : Option (List Item)

/-- Query-level oracles: the configured search credential (`st.secrets`),
the outcome of the search request (`Except.error` covers a request
exception as well as a non-JSON body failing `response.json()`), and the
per-candidate oracles, indexed by candidate position. -/
structure SearchEnv where
  secret : Option String
  response : Except Unit SearchData
  items : Nat → Env

/-- The task-boundary collection loop (search_service.py:295-301): each
completed future yields its record; an exception re-raised by
`future.result()` is caught, logged and skipped.  `as_completed` hands the
futures back in completion order — a permutation of the submission order
used here; no claim depends on the order.  -/
def aggregate (outs : List (Except Unit (Option Json))) : List Json :=
  outs.filterMap (fun o =>
    match o with
    | Except.ok (some j) => some j
    | _ => none)

/-- Outcomes of the tasks submitted to the 5-worker pool, one per
candidate, in submission order. -/
def taskOutcomes (senv : SearchEnv) (results : List Item) :
    List (Except Unit (Option Json)) :=
  results.enum.map (fun p => (process_single_search_result (senv.items p.1) p.1 p.2).out)

/-- Model of `search_for_keyword(query)`: a missing credential returns `[]`
(search_service.py:253-257); a failed request or unparsable body returns
`[]` (273-278); an absent `organic` key returns `[]` (305-307); otherwise
the candidates are fanned out and the produced records collected. -/
def search_for_keyword (senv : SearchEnv) (query : String) : List Json :=
  match senv.secret with
  | none => []
  | some _ =>
    match senv.response with
    | Except.error _ => []
    | Except.ok data =>
      match data.organic with
      | none => []
      | some results => aggregate (taskOutcomes senv results)

/-- The Candidate list of one invocation (empty in every failure branch). -/
def candidatesOf (senv : SearchEnv) : List Item :=
  match senv.secret with
  | none => []
  | some _ =>
    match senv.response with
    | Except.error _ => []
    | Except.ok data => data.organic.getD []

/-! ### Concrete environments used as witnesses and counterexamples -/

/-- Every oracle raises; used where the oracles must not matter. -/
def envTriv : Env :=
  { jina := fun _ => Except.error ()
  , direct := fun _ => Except.error ()
  , ai := fun _ => Except.error () }

/-- A 300-character page body (at the minimum-content threshold). -/
def longText : String := String.mk (List.replicate 300 'a')

/-- A candidate with link `http://a`. -/
def itemA : Item := { title := some "t", link := some "http://a", snippet := none }

/-- A candidate whose `link` key is absent. -/
def itemNoLink : Item := { title := some "t", link := none, snippet := none }

/-- Primary fetch succeeds with a 300-character body; the extractor answers
with a record whose `source_url` is NOT the candidate's link. -/
def envB : Env :=
  { jina := fun _ => Except.ok { status := 200, text := longText }
  , direct := fun _ => Except.error ()
  , ai := fun _ => Except.ok "\x7b\"valid\": true, \"source_url\": \"http://b\"\x7d" }

/-- One candidate (`itemA`), processed through `envB`. -/
def senvB : SearchEnv :=
  { secret := some "k"
  , response := Except.ok { organic := some [itemA] }
  , items := fun _ => envB }

/-- The record `senvB` produces. -/
def recB : Json :=
  Json.obj [("valid", Json.bool true), ("source_url", Json.str "http://b")]

/-- The search request itself raises. -/
def senvFail : SearchEnv :=
  { secret := some "k", response := Except.error (), items := fun _ => envTriv }

/-- The search request succeeds and finds no results. -/
def senvNoResults : SearchEnv :=
  { secret := some "k"
  , response := Except.ok { organic := some [] }
  , items := fun _ => envTriv }

/-- Primary fetch succeeds; the extractor answers with a record that has no
`valid` field at all. -/
def envC10 : Env :=
  { jina := fun _ => Except.ok { status := 200, text := longText }
  , direct := fun _ => Except.error ()
  , ai := fun _ => Except.ok "\x7b\"title\": \"t\"\x7d" }

/-- One candidate (`itemA`), processed through `envC10`. -/
def senvC10 : SearchEnv :=
  { secret := some "k"
  , response := Except.ok { organic := some [itemA] }
  , items := fun _ => envC10 }

/-- The record `senvC10` surfaces: no `valid` field, `source_url` defaulted
from the candidate's link. -/
def recC10 : Json :=
  Json.obj [("title", Json.str "t"), ("source_url", Json.str "http://a")]

/-! ## Claims -/

/-- Claim C4. An error raised while processing one Candidate's task is caught
at the task boundary and treated as producing no record; the records of all
sibling tasks (those before and after it) are still returned by the
collection loop. -/
theorem C4_task_isolation (pre post : List (Except Unit (Option Json))) (u : Unit) :
    aggregate (pre ++ Except.error u :: post) = aggregate pre ++ aggregate post := by
  simp [aggregate, List.filterMap_append]

/-- Claim C1, counterexample. A failing search request and a successful search
with no results return the identical value `[]`: the failure is not
surfaced to the caller as a distinct signal. -/
theorem C1_counterexample :
    search_for_keyword senvFail "q" = search_for_keyword senvNoResults "q" ∧
    senvFail.response = Except.error () ∧
    senvNoResults.response = Except.ok { organic := some [] } ∧
    search_for_keyword senvNoResults "q" = [] :=
  ⟨rfl, rfl, rfl, rfl⟩

/-- Claim C1, amended. If the search API call fails (missing credential or a
raised request error), `search_for_keyword` returns an empty ResultSet; the
failure is only printed, so the return value is indistinguishable from a
successful search that found no results. -/
theorem C1_failure_returns_empty (senv : SearchEnv) (q : String)
    (h : senv.secret = none ∨ senv.response = Except.error ()) :
    search_for_keyword senv q = [] := by
  cases h with
  | inl h => simp [search_for_keyword, h]
  | inr h =>
    cases hsec : senv.secret <;> simp [search_for_keyword, hsec, h]

/-- Witness for C1: the amended theorem applied to `senvFail`. -/
theorem C1_witness : search_for_keyword senvFail "q" = [] :=
  C1_failure_returns_empty senvFail "q" (Or.inr rfl)

/-- Claim C8, counterexample. A Candidate with a missing link does raise an
error inside the worker (`blocked in link` raises a `TypeError` when `link`
is `None`), refuting "no error is raised". -/
theorem C8_counterexample :
    (process_single_search_result envTriv 0 itemNoLink).out = Except.error () :=
  rfl

/-- Claim C8, amended. A Candidate with a missing link contributes nothing to
the ResultSet and no network or extractor call is issued for it (the
outcome is the same for every oracle environment, with zero extractor
calls), but not by a clean reject: the blocklist containment test raises a
`TypeError` inside the worker, which escapes to the task boundary where the
coordinator catches it. -/
theorem C8_missing_link_raises (env : Env) (idx : Nat) (t s : Option String) :
    process_single_search_result env idx { title := t, link := none, snippet := s } =
      { out := Except.error (), aiCalls := 0 } :=
  rfl

/-! ### Helper lemmas about the extractor's retry loop -/

lemma aiExtractGo_snd_le (responses : Nat → Except Unit String) :
    ∀ (r a : Nat), (aiExtractGo responses a r).2 ≤ r := by
  intro r
  induction r with
  | zero => intro a; simp [aiExtractGo]
  | succ n ih =>
    intro a
    simp only [aiExtractGo]
    cases attemptStep (responses a) with
    | retry => simpa using ih (a + 1)
    | invalid => simp
    | success j => simp

lemma aiExtractGo_all_retry (responses : Nat → Except Unit String) :
    ∀ (r a : Nat),
      (∀ i, i < r → attemptStep (responses (a + i)) = AttemptResult.retry) →
      aiExtractGo responses a r = (none, r) := by
  intro r
  induction r with
  | zero => intro a _; rfl
  | succ n ih =>
    intro a h
    have h0 : attemptStep (responses a) = AttemptResult.retry := by
      simpa using h 0 (Nat.succ_pos n)
    have hrest : ∀ i, i < n → attemptStep (responses (a + 1 + i)) = AttemptResult.retry := by
      intro i hi
      have := h (i + 1) (Nat.succ_lt_succ hi)
      simpa [Nat.add_assoc, Nat.add_comm 1 i] using this
    simp [aiExtractGo, h0, ih (a + 1) hrest]

lemma aiExtractGo_invalid_at (responses : Nat → Except Unit String) :
    ∀ (k r a : Nat), k < r →
      (∀ i, i < k → attemptStep (responses (a + i)) = AttemptResult.retry) →
      attemptStep (responses (a + k)) = AttemptResult.invalid →
      aiExtractGo responses a r = (none, k + 1) := by
  intro k
  induction k with
  | zero =>
    intro r a hr _ hk
    obtain ⟨r', rfl⟩ : ∃ r', r = r' + 1 := ⟨r - 1, by omega⟩
    simp only [Nat.add_zero] at hk
    simp [aiExtractGo, hk]
  | succ n ih =>
    intro r a hr hearly hk
    obtain ⟨r', rfl⟩ : ∃ r', r = r' + 1 := ⟨r - 1, by omega⟩
    have h0 : attemptStep (responses a) = AttemptResult.retry := by
      simpa using hearly 0 (Nat.succ_pos n)
    have hearly' : ∀ i, i < n → attemptStep (responses (a + 1 + i)) = AttemptResult.retry := by
      intro i hi
      have := hearly (i + 1) (Nat.succ_lt_succ hi)
      simpa [Nat.add_assoc, Nat.add_comm 1 i] using this
    have hk' : attemptStep (responses (a + 1 + n)) = AttemptResult.invalid := by
      simpa [Nat.add_assoc, Nat.add_comm 1 n] using hk
    have := ih r' (a + 1) (by omega) hearly' hk'
    simp [aiExtractGo, h0, this]

lemma attemptStep_success_obj {resp : Except Unit String} {j : Json}
    (h : attemptStep resp = AttemptResult.success j) :
    ∃ kvs, j = Json.obj kvs := by
  cases resp with
  | error _ => exact absurd h (by simp [attemptStep])
  | ok raw =>
    cases hp : clean_and_parse_json raw with
    | none => simp [attemptStep, hp] at h
    | some j0 =>
      by_cases ht : jsonTruthy j0 = true
      · cases j0 with
        | obj kvs =>
          by_cases hv : jsonTruthy (getDField kvs "valid" (Json.bool true)) = true
          · simp only [attemptStep, hp, ht, hv, if_true] at h
            exact ⟨kvs, by cases h; rfl⟩
          · simp [attemptStep, hp, ht, hv] at h
        | null => simp [attemptStep, hp, ht] at h
        | bool b => simp [attemptStep, hp, ht] at h
        | num n => simp [attemptStep, hp, ht] at h
        | str s => simp [attemptStep, hp, ht] at h
        | arr xs => simp [attemptStep, hp, ht] at h
      · simp [attemptStep, hp, ht] at h

lemma aiExtractGo_fst_obj (responses : Nat → Except Unit String) :
    ∀ (r a : Nat) (j : Json), (aiExtractGo responses a r).1 = some j →
      ∃ kvs, j = Json.obj kvs := by
  intro r
  induction r with
  | zero => intro a j h; simp [aiExtractGo] at h
  | succ n ih =>
    intro a j h
    simp only [aiExtractGo] at h
    cases hs : attemptStep (responses a) with
    | retry => rw [hs] at h; exact ih (a + 1) j (by simpa using h)
    | invalid => rw [hs] at h; simp at h
    | success j0 =>
      rw [hs] at h
      simp at h
      exact h ▸ attemptStep_success_obj hs

/-- Claim C6. For any candidate, the extractor makes at most
`maxExtractRetries + 1` calls to the text-understanding service (3 with the
default budget of 2 used by the pipeline); a raised service call and a
response that fails to parse both trigger a retry; and when every attempt
within the budget retries, the extractor returns none after exactly
`maxExtractRetries + 1` calls. -/
theorem C6_extract_retry_budget (responses : Nat → Except Unit String)
    (maxRetries : Nat) (raw : String) :
    ai_extract_calls responses maxRetries ≤ maxRetries + 1 ∧
    attemptStep (Except.error ()) = AttemptResult.retry ∧
    (clean_and_parse_json raw = none →
      attemptStep (Except.ok raw) = AttemptResult.retry) ∧
    ((∀ i, i ≤ maxRetries → attemptStep (responses i) = AttemptResult.retry) →
      ai_extract_json responses maxRetries = none ∧
      ai_extract_calls responses maxRetries = maxRetries + 1) := by
  refine ⟨aiExtractGo_snd_le responses (maxRetries + 1) 0, rfl, ?_, ?_⟩
  · intro hp
    simp [attemptStep, hp]
  · intro h
    have := aiExtractGo_all_retry responses (maxRetries + 1) 0
      (fun i hi => by simpa using h i (by omega))
    constructor
    · simp [ai_extract_json, this]
    · simp [ai_extract_calls, this]

/-- Witness for C6 at `maxRetries = 2` (so at most 3 calls) with a service
that always raises: all hypotheses are discharged concretely. -/
theorem C6_witness :
    ai_extract_calls (fun _ => Except.error ()) 2 ≤ 3 ∧
    ai_extract_json (fun _ => Except.error ()) 2 = none ∧
    ai_extract_calls (fun _ => Except.error ()) 2 = 3 :=
  ⟨(C6_extract_retry_budget (fun _ => Except.error ()) 2 "").1,
   ((C6_extract_retry_budget (fun _ => Except.error ()) 2 "").2.2.2
      (fun _ _ => rfl)).1,
   ((C6_extract_retry_budget (fun _ => Except.error ()) 2 "").2.2.2
      (fun _ _ => rfl)).2⟩

lemma jsonTruthy_obj_of_ne {kvs : List (String × Json)} (h : kvs ≠ []) :
    jsonTruthy (Json.obj kvs) = true := by
  cases kvs with
  | nil => exact absurd rfl h
  | cons p rest => rfl

lemma lookupField_ne_nil {kvs : List (String × Json)} {k : String} {v : Json}
    (h : lookupField kvs k = some v) : kvs ≠ [] := by
  intro he
  rw [he] at h
  simp [lookupField] at h

lemma attemptStep_invalid_of {raw : String} {kvs : List (String × Json)}
    (hparse : clean_and_parse_json raw = some (Json.obj kvs))
    (hvalid : lookupField kvs "valid" = some (Json.bool false)) :
    attemptStep (Except.ok raw) = AttemptResult.invalid := by
  have hne : kvs ≠ [] := lookupField_ne_nil hvalid
  have hd : getDField kvs "valid" (Json.bool true) = Json.bool false := by
    simp [getDField, hvalid]
  simp only [attemptStep, hparse, jsonTruthy_obj_of_ne hne, hd]
  simp [jsonTruthy]

lemma process_no_record_of_ai_none (env : Env) (idx : Nat) (item : Item)
    (h : (aiExtractGo env.ai 0 3).1 = none) :
    ∀ j : Json, (process_single_search_result env idx item).out ≠ Except.ok (some j) := by
  intro j hc
  unfold process_single_search_result at hc
  repeat' split at hc
  all_goals simp_all

/-- Claim C3. A response of the text-understanding service that parses
successfully but whose `valid` field is explicitly `false` makes the
extractor return none immediately — the call budget stops at that attempt,
with no further retries — and no such candidate can contribute a record to
the ResultSet. -/
theorem C3_valid_false_discarded (responses : Nat → Except Unit String)
    (k : Nat) (raw : String) (kvs : List (String × Json))
    (hk : k ≤ 2)
    (hearly : ∀ i, i < k → attemptStep (responses i) = AttemptResult.retry)
    (hresp : responses k = Except.ok raw)
    (hparse : clean_and_parse_json raw = some (Json.obj kvs))
    (hvalid : lookupField kvs "valid" = some (Json.bool false)) :
    ai_extract_json responses 2 = none ∧
    ai_extract_calls responses 2 = k + 1 ∧
    (∀ (env : Env) (idx : Nat) (item : Item), env.ai = responses →
      ∀ j : Json, (process_single_search_result env idx item).out ≠ Except.ok (some j)) := by
  have hstep : attemptStep (responses k) = AttemptResult.invalid := by
    rw [hresp]; exact attemptStep_invalid_of hparse hvalid
  have hgo : aiExtractGo responses 0 3 = (none, k + 1) :=
    aiExtractGo_invalid_at responses k 3 0 (by omega)
      (fun i hi => by simpa using hearly i hi) (by simpa using hstep)
  refine ⟨by simp [ai_extract_json, hgo], by simp [ai_extract_calls, hgo], ?_⟩
  intro env idx item hai j
  exact process_no_record_of_ai_none env idx item (by rw [hai, hgo]) j

/-- Witness for C3: the `valid:false` answer arrives on the first attempt;
the extractor stops after exactly one call and yields nothing. -/
theorem C3_witness :
    ai_extract_json (fun _ => Except.ok "\x7b\"valid\": false, \"title\": \"x\"\x7d") 2 = none ∧
    ai_extract_calls (fun _ => Except.ok "\x7b\"valid\": false, \"title\": \"x\"\x7d") 2 = 1 :=
  ⟨(C3_valid_false_discarded _ 0 "\x7b\"valid\": false, \"title\": \"x\"\x7d"
      [("valid", Json.bool false), ("title", Json.str "x")]
      (by omega) (fun i hi => absurd hi (Nat.not_lt_zero i)) rfl (by rfl) rfl).1,
   (C3_valid_false_discarded _ 0 "\x7b\"valid\": false, \"title\": \"x\"\x7d"
      [("valid", Json.bool false), ("title", Json.str "x")]
      (by omega) (fun i hi => absurd hi (Nat.not_lt_zero i)) rfl (by rfl) rfl).2.1⟩

/-- Claim C10. A parsed response that is a (non-empty) JSON object with no
`valid` field at all is treated as valid: `result.get("valid", True)`
defaults to `True`, so the record is returned on that very attempt — and
such a record is surfaced in the ResultSet (the concrete run `senvC10`
returns a record with no `valid` field). -/
theorem C10_missing_valid_treated_valid (responses : Nat → Except Unit String)
    (m : Nat) (raw : String) (kvs : List (String × Json))
    (h0 : responses 0 = Except.ok raw)
    (hparse : clean_and_parse_json raw = some (Json.obj kvs))
    (hnv : lookupField kvs "valid" = none)
    (hne : kvs ≠ []) :
    ai_extract_json responses m = some (Json.obj kvs) ∧
    search_for_keyword senvC10 "q" = [recC10] ∧
    getField recC10 "valid" = none := by
  have hd : getDField kvs "valid" (Json.bool true) = Json.bool true := by
    simp [getDField, hnv]
  have hstep : attemptStep (responses 0) = AttemptResult.success (Json.obj kvs) := by
    rw [h0]
    simp only [attemptStep, hparse, jsonTruthy_obj_of_ne hne, hd]
    simp [jsonTruthy]
  refine ⟨?_, by rfl, rfl⟩
  simp [ai_extract_json, aiExtractGo, hstep]

/-- Witness for C10: a record `\x7b"title": "t"\x7d` with no `valid` field is
returned by the extractor. -/
theorem C10_witness :
    ai_extract_json (fun _ => Except.ok "\x7b\"title\": \"t\"\x7d") 2 =
      some (Json.obj [("title", Json.str "t")]) :=
  (C10_missing_valid_treated_valid _ 2 "\x7b\"title\": \"t\"\x7d" [("title", Json.str "t")]
    rfl (by rfl) rfl (by simp)).1

/-- Claim C5. When the fetched-and-cleaned content is shorter than 300
characters (including the falsy empty string), the worker returns no record
and the extractor is never invoked (zero service calls). -/
theorem C5_short_content_skips_extractor (env : Env) (idx : Nat) (item : Item)
    (l c : String)
    (hlink : item.link = some l)
    (hnb : blockedLink l = false)
    (ht : item.title.isSome = true)
    (hfetch : (fetch_jina_content env l 2).result = some c)
    (hlen : c.length < 300) :
    (process_single_search_result env idx item).out = Except.ok none ∧
    (process_single_search_result env idx item).aiCalls = 0 := by
  obtain ⟨t, lnk, s⟩ := item
  simp only at hlink ht
  subst hlink
  obtain ⟨t0, rfl⟩ := Option.isSome_iff_exists.mp ht
  by_cases hc : c = ""
  · constructor <;>
      simp [process_single_search_result, hnb, hfetch, hc]
  · constructor <;>
      simp [process_single_search_result, hnb, hfetch, hc, hlen]

/-- Witness for C5: a 5-character page. -/
theorem C5_witness :
    (process_single_search_result
        { jina := fun _ => Except.ok { status := 200, text := "short" }
        , direct := fun _ => Except.error ()
        , ai := fun _ => Except.error () } 0 itemA).out = Except.ok none ∧
    (process_single_search_result
        { jina := fun _ => Except.ok { status := 200, text := "short" }
        , direct := fun _ => Except.error ()
        , ai := fun _ => Except.error () } 0 itemA).aiCalls = 0 :=
  C5_short_content_skips_extractor _ 0 itemA "http://a" "short"
    rfl rfl rfl rfl (by decide)

/-! ### Helper lemmas about the fetcher -/

lemma beq200_eq_false_of_retry {s : Nat} (h : retryStatus s = true) :
    (s == 200) = false := by
  simp only [retryStatus, Bool.or_eq_true, beq_iff_eq] at h
  rcases h with ((((h | h) | h) | h) | h) <;> subst h <;> decide

lemma jinaLoop_abandon (env : Env) :
    ∀ (k r a : Nat), k < r →
      (∀ i, i < k → env.jina (a + i) = Except.error () ∨
        ∃ resp, env.jina (a + i) = Except.ok resp ∧ retryStatus resp.status = true) →
      ∀ resp : HttpResp, env.jina (a + k) = Except.ok resp →
        (resp.status == 200) = false → retryStatus resp.status = false →
        jinaLoop env a r = (none, k + 1) := by
  intro k
  induction k with
  | zero =>
    intro r a hr _ resp hk h200 hretry
    obtain ⟨r', rfl⟩ : ∃ r', r = r' + 1 := ⟨r - 1, by omega⟩
    simp only [Nat.add_zero] at hk
    simp [jinaLoop, hk, h200, hretry]
  | succ n ih =>
    intro r a hr hearly resp hk h200 hretry
    obtain ⟨r', rfl⟩ : ∃ r', r = r' + 1 := ⟨r - 1, by omega⟩
    have hearly' : ∀ i, i < n → env.jina (a + 1 + i) = Except.error () ∨
        ∃ resp, env.jina (a + 1 + i) = Except.ok resp ∧ retryStatus resp.status = true := by
      intro i hi
      have := hearly (i + 1) (Nat.succ_lt_succ hi)
      simpa [Nat.add_assoc, Nat.add_comm 1 i] using this
    have hk' : env.jina (a + 1 + n) = Except.ok resp := by
      simpa [Nat.add_assoc, Nat.add_comm 1 n] using hk
    have hrec := ih r' (a + 1) (by omega) hearly' resp hk' h200 hretry
    rcases hearly 0 (Nat.succ_pos n) with h0 | ⟨resp0, h0, hr0⟩
    · simp only [Nat.add_zero] at h0
      simp [jinaLoop, h0, hrec]
    · simp only [Nat.add_zero] at h0
      simp [jinaLoop, h0, beq200_eq_false_of_retry hr0, hr0, hrec]

lemma directLoop_calls_pos (env : Env) (a r : Nat) (hr : 1 ≤ r) :
    1 ≤ (directLoop env a r).2 := by
  obtain ⟨r', rfl⟩ : ∃ r', r = r' + 1 := ⟨r - 1, by omega⟩
  cases henv : env.direct a with
  | error u => simp [directLoop, henv]
  | ok res =>
    by_cases h2 : (res.status == 200) = true <;>
      by_cases h4 : (res.status == 403) = true <;>
        by_cases hlen : res.text.length < 500 <;>
          simp [directLoop, henv, h2, h4, hlen]

/-- Claim C7. In the primary (reader-proxy) tier, a response whose status is
neither 200 nor one of the retryable statuses 429/500/502/503/504 abandons
the tier immediately: no further primary request is made (exactly `k + 1`
primary calls when it happens on attempt `k`), and control falls through to
the fallback direct-fetch tier, which issues at least one request and
provides whatever the whole fetch returns. -/
theorem C7_primary_abandoned_on_hard_status (env : Env) (link : String)
    (k : Nat) (resp : HttpResp)
    (hk : k ≤ 2)
    (hearly : ∀ i, i < k → env.jina i = Except.error () ∨
      ∃ r, env.jina i = Except.ok r ∧ retryStatus r.status = true)
    (hks : env.jina k = Except.ok resp)
    (h200 : resp.status ≠ 200)
    (hretry : retryStatus resp.status = false) :
    (fetch_jina_content env link 2).jinaCalls = k + 1 ∧
    1 ≤ (fetch_jina_content env link 2).directCalls ∧
    (fetch_jina_content env link 2).result = (directLoop env 0 2).1 := by
  have hb : (resp.status == 200) = false := by
    cases hx : resp.status == 200
    · rfl
    · exact absurd (eq_of_beq hx) h200
  have hgo : jinaLoop env 0 3 = (none, k + 1) :=
    jinaLoop_abandon env k 3 0 (by omega)
      (fun i hi => by simpa using hearly i hi) resp (by simpa using hks) hb hretry
  refine ⟨?_, ?_, ?_⟩ <;>
    simp [fetch_jina_content, hgo, directLoop_calls_pos env 0 2 (by omega)]

/-- Witness for C7: a 404 on the first primary attempt, then two 403
fallback attempts. -/
theorem C7_witness :
    (fetch_jina_content
        { jina := fun _ => Except.ok { status := 404, text := "" }
        , direct := fun _ => Except.ok { status := 403, text := "" }
        , ai := fun _ => Except.error () } "http://a" 2).jinaCalls = 1 ∧
    1 ≤ (fetch_jina_content
        { jina := fun _ => Except.ok { status := 404, text := "" }
        , direct := fun _ => Except.ok { status := 403, text := "" }
        , ai := fun _ => Except.error () } "http://a" 2).directCalls :=
  ⟨(C7_primary_abandoned_on_hard_status _ "http://a" 0 { status := 404, text := "" }
      (by omega) (fun i hi => absurd hi (Nat.not_lt_zero i)) rfl (by decide) rfl).1,
   (C7_primary_abandoned_on_hard_status _ "http://a" 0 { status := 404, text := "" }
      (by omega) (fun i hi => absurd hi (Nat.not_lt_zero i)) rfl (by decide) rfl).2.1⟩

/-! ### Helper lemmas tracing records back to candidates -/

lemma lookupField_append_isSome (kvs : List (String × Json)) (k : String) (v : Json) :
    (lookupField (kvs ++ [(k, v)]) k).isSome = true := by
  induction kvs with
  | nil => simp [lookupField]
  | cons p rest ih =>
    by_cases hp : (p.1 == k) = true
    · simp [lookupField, hp]
    · simpa [lookupField, hp] using ih

lemma getField_insertSourceUrl (kvs : List (String × Json)) (link : String) :
    (getField (insertSourceUrl (Json.obj kvs) link) "source_url").isSome = true := by
  unfold insertSourceUrl
  cases hl : lookupField kvs "source_url" with
  | some v => simp [getField, hl]
  | none =>
    simp only [hl]
    simpa [getField] using lookupField_append_isSome kvs "source_url" (Json.str link)

lemma process_out_some_shape (env : Env) (idx : Nat) (item : Item) (j : Json)
    (h : (process_single_search_result env idx item).out = Except.ok (some j)) :
    ∃ kvs link, (aiExtractGo env.ai 0 3).1 = some (Json.obj kvs) ∧
      j = insertSourceUrl (Json.obj kvs) link := by
  obtain ⟨t, lnk, s⟩ := item
  cases lnk with
  | none => simp [process_single_search_result] at h
  | some link =>
    by_cases hb : blockedLink link = true
    · simp [process_single_search_result, hb] at h
    · cases t with
      | none => simp [process_single_search_result, hb] at h
      | some t0 =>
        cases hf : (fetch_jina_content env link 2).result with
        | none => simp [process_single_search_result, hb, hf] at h
        | some content =>
          by_cases hce : content = ""
          · simp [process_single_search_result, hb, hf, hce] at h
          · by_cases hcl : content.length < 300
            · simp [process_single_search_result, hb, hf, hce, hcl] at h
            · cases hgo : (aiExtractGo env.ai 0 3).1 with
              | none => simp [process_single_search_result, hb, hf, hce, hcl, hgo] at h
              | some j0 =>
                by_cases htr : jsonTruthy j0 = true
                · obtain ⟨kvs, rfl⟩ := aiExtractGo_fst_obj env.ai 3 0 j0 hgo
                  refine ⟨kvs, link, rfl, ?_⟩
                  simp [process_single_search_result, hb, hf, hce, hcl, hgo, htr] at h
                  exact h.symm
                · simp [process_single_search_result, hb, hf, hce, hcl, hgo, htr] at h

/-- The record's `source_url`, when it is a string (the shape the claim
compares against a Candidate's link). -/
def recSource (j : Json) : Option String :=
  match getField j "source_url" with
  | some (Json.str s) => some s
  | _ => none

/-- Claim C2, counterexample. The pipeline keeps an extractor-provided
`source_url` as is, so the produced record's source URL (`http://b`) is the
link of no input Candidate (the only Candidate's link is `http://a`): the
claimed invariant fails at `senvB`. -/
theorem C2_counterexample :
    ¬ ((search_for_keyword senvB "q").length ≤ (candidatesOf senvB).length ∧
       ∀ j ∈ search_for_keyword senvB "q",
         ∃! c : Item, c ∈ candidatesOf senvB ∧ recSource j = c.link) := by
  rintro ⟨-, hcl⟩
  have hs : search_for_keyword senvB "q" = [recB] := by rfl
  have hmem : recB ∈ search_for_keyword senvB "q" := by
    rw [hs]; exact List.mem_singleton.mpr rfl
  obtain ⟨c, ⟨hcmem, heq⟩, -⟩ := hcl recB hmem
  have hcand : candidatesOf senvB = [itemA] := by rfl
  rw [hcand] at hcmem
  have hc : c = itemA := List.mem_singleton.mp hcmem
  subst hc
  have h1 : recSource recB = some "http://b" := by rfl
  have h2 : itemA.link = some "http://a" := rfl
  rw [h1, h2] at heq
  exact absurd heq (by decide)

/-- Claim C2, amended. The ResultSet is never larger than the Candidate list,
and every record in it is the output of the task of one candidate position
and always carries a populated `source_url` field (defaulted from that
candidate's link when the extractor omitted it) — but that value is the
extractor's own whenever the extractor supplied one, so it need not equal
any Candidate's link. -/
theorem C2_size_and_traceability (senv : SearchEnv) (q : String) :
    (search_for_keyword senv q).length ≤ (candidatesOf senv).length ∧
    ∀ j ∈ search_for_keyword senv q,
      ∃ p ∈ (candidatesOf senv).enum,
        (process_single_search_result (senv.items p.1) p.1 p.2).out = Except.ok (some j) ∧
        (getField j "source_url").isSome = true := by
  cases hsec : senv.secret with
  | none => simp [search_for_keyword, hsec]
  | some key =>
    cases hresp : senv.response with
    | error e => simp [search_for_keyword, hsec, hresp]
    | ok data =>
      cases horg : data.organic with
      | none => simp [search_for_keyword, candidatesOf, hsec, hresp, horg]
      | some results =>
        have hsearch : search_for_keyword senv q = aggregate (taskOutcomes senv results) := by
          simp [search_for_keyword, hsec, hresp, horg]
        have hcand : candidatesOf senv = results := by
          simp [candidatesOf, hsec, hresp, horg]
        rw [hsearch, hcand]
        constructor
        · calc (aggregate (taskOutcomes senv results)).length
              ≤ (taskOutcomes senv results).length := List.length_filterMap_le _ _
            _ = results.length := by simp [taskOutcomes]
        · intro j hj
          obtain ⟨o, ho, hfo⟩ := List.mem_filterMap.mp hj
          have ho' : o = Except.ok (some j) := by
            cases o with
            | error u => simp at hfo
            | ok oo =>
              cases oo with
              | none => simp at hfo
              | some x => simp at hfo; rw [hfo]
          obtain ⟨p, hp, hpe⟩ := List.mem_map.mp ho
          have hout : (process_single_search_result (senv.items p.1) p.1 p.2).out =
              Except.ok (some j) := by rw [hpe, ho']
          obtain ⟨kvs, link, -, rfl⟩ :=
            process_out_some_shape (senv.items p.1) p.1 p.2 j hout
          exact ⟨p, hp, hout, getField_insertSourceUrl kvs link⟩

/-- Witness for C2: at `senvB` the single produced record is traced back to
the task of candidate position 0 and carries a `source_url` field. -/
theorem C2_witness :
    ∃ p ∈ (candidatesOf senvB).enum,
      (process_single_search_result (senvB.items p.1) p.1 p.2).out = Except.ok (some recB) ∧
      (getField recB "source_url").isSome = true :=
  (C2_size_and_traceability senvB "q").2 recB (by
    have hs : search_for_keyword senvB "q" = [recB] := by rfl
    rw [hs]; exact List.mem_singleton.mpr rfl)

/-! ### Code-fence wrapping (C9)

Side conditions on the wrapped text are expressed by two scanning
predicates mirroring the substitution scanners: `thinkFree` (no
`<think>` opening marker anywhere) and `fenceFree` (no line starting with
three backticks, tracking the same line-start flag as the scanners). -/

/-- No position of the text starts a `<think>` marker. -/
def thinkFree : List Char → Bool
  | [] => true
  | c :: cs => !("<think>".toList.isPrefixOf (c :: cs)) && thinkFree cs

/-- No line-start position (given the incoming line-start flag `b`) begins
with three backticks. -/
def fenceFree : Bool → List Char → Bool
  | _, [] => true
  | b, c :: cs => !(b && "```".toList.isPrefixOf (c :: cs)) && fenceFree (c == '\n') cs

/-- The text starts with a non-whitespace character (true of any serialized
JSON object, which starts with a brace). -/
def startsNonWs (s : String) : Bool :=
  match s.toList with
  | [] => false
  | c :: _ => !isWs c

/-- Wrapping a response in a ```json code fence. -/
def wrapFence (s : String) : String := "```json\n" ++ s ++ "\n```"

lemma removeThinkF_id {cs : List Char} (h : thinkFree cs = true) :
    ∀ fuel, removeThinkF fuel cs = cs := by
  induction cs with
  | nil => intro fuel; cases fuel <;> rfl
  | cons c cs ih =>
    intro fuel
    rw [thinkFree, Bool.and_eq_true, Bool.not_eq_true'] at h
    cases fuel with
    | zero => rfl
    | succ f =>
      simp only [removeThinkF, h.1]
      simp [ih h.2 f]

lemma isPrefixOf_append_of_ne (pat : List Char) (c : Char)
    (hpat : ∀ a ∈ pat, a ≠ c) :
    ∀ (xs ys : List Char), pat.isPrefixOf (xs ++ c :: ys) = pat.isPrefixOf xs := by
  induction pat with
  | nil => intro xs ys; simp [List.isPrefixOf]
  | cons p pt ih =>
    intro xs ys
    cases xs with
    | nil =>
      have hp : p ≠ c := hpat p (List.mem_cons_self p pt)
      simp [List.isPrefixOf, hp]
    | cons x xt =>
      have hpat' : ∀ a ∈ pt, a ≠ c := fun a ha => hpat a (List.mem_cons_of_mem p ha)
      simp [List.isPrefixOf, ih hpat' xt ys]

lemma ticks_isPrefixOf_of_json {cs : List Char}
    (h : "```json".toList.isPrefixOf cs = true) :
    "```".toList.isPrefixOf cs = true := by
  rw [List.isPrefixOf_iff_prefix] at h ⊢
  refine List.IsPrefix.trans ?_ h
  exact ⟨"json".toList, by decide⟩

lemma scanJsonFenceF_id {b : Bool} {cs : List Char} (h : fenceFree b cs = true) :
    ∀ fuel, scanJsonFenceF fuel b cs = cs := by
  induction cs generalizing b with
  | nil => intro fuel; cases fuel <;> rfl
  | cons c cs ih =>
    intro fuel
    rw [fenceFree, Bool.and_eq_true, Bool.not_eq_true'] at h
    have hpre : (b && "```json".toList.isPrefixOf (c :: cs)) = false := by
      cases hb : b with
      | false => rfl
      | true =>
        rw [hb] at h
        cases hj : "```json".toList.isPrefixOf (c :: cs) with
        | false => rfl
        | true =>
          rw [ticks_isPrefixOf_of_json hj] at h
          exact absurd h.1 (by simp)
    cases fuel with
    | zero => rfl
    | succ f =>
      simp only [scanJsonFenceF, hpre]
      simp [ih h.2 f]

lemma scanFenceF_id {b : Bool} {cs : List Char} (h : fenceFree b cs = true) :
    ∀ fuel, scanFenceF fuel b cs = cs := by
  induction cs generalizing b with
  | nil => intro fuel; cases fuel <;> rfl
  | cons c cs ih =>
    intro fuel
    rw [fenceFree, Bool.and_eq_true, Bool.not_eq_true'] at h
    cases fuel with
    | zero => rfl
    | succ f =>
      simp only [scanFenceF]
      rw [h.1]
      simp [ih h.2 f]

/-- No line-start position begins with the longer marker ```json
(the analogue of `fenceFree` for the first fence substitution). -/
def jsonFenceFree : Bool → List Char → Bool
  | _, [] => true
  | b, c :: cs => !(b && "```json".toList.isPrefixOf (c :: cs)) && jsonFenceFree (c == '\n') cs

lemma jsonPrefix_and_false {b : Bool} {cs : List Char}
    (h : (b && "```".toList.isPrefixOf cs) = false) :
    (b && "```json".toList.isPrefixOf cs) = false := by
  cases hb : b with
  | false => rfl
  | true =>
    rw [hb] at h
    cases hj : "```json".toList.isPrefixOf cs with
    | false => rfl
    | true => rw [ticks_isPrefixOf_of_json hj] at h; exact absurd h (by simp)

lemma jsonFenceFree_of_fenceFree {b : Bool} {cs : List Char}
    (h : fenceFree b cs = true) : jsonFenceFree b cs = true := by
  induction cs generalizing b with
  | nil => rfl
  | cons c cs ih =>
    rw [fenceFree, Bool.and_eq_true, Bool.not_eq_true'] at h
    rw [jsonFenceFree, jsonPrefix_and_false h.1]
    simpa using ih h.2

lemma scanJsonFenceF_id' {b : Bool} {cs : List Char} (h : jsonFenceFree b cs = true) :
    ∀ fuel, scanJsonFenceF fuel b cs = cs := by
  induction cs generalizing b with
  | nil => intro fuel; cases fuel <;> rfl
  | cons c cs ih =>
    intro fuel
    rw [jsonFenceFree, Bool.and_eq_true, Bool.not_eq_true'] at h
    cases fuel with
    | zero => rfl
    | succ f =>
      simp only [scanJsonFenceF]
      rw [h.1]
      simp [ih h.2 f]

/-- The list the closing fence contributes: a newline then three backticks. -/
def fenceTail : List Char := '\n' :: "```".toList

lemma jsonFenceFree_append_tail {cs : List Char} {b : Bool}
    (h : fenceFree b cs = true) : jsonFenceFree b (cs ++ fenceTail) = true := by
  induction cs generalizing b with
  | nil => cases b <;> decide
  | cons c cs ih =>
    rw [fenceFree, Bool.and_eq_true, Bool.not_eq_true'] at h
    have hput := isPrefixOf_append_of_ne "```json".toList '\n'
      (by decide) (c :: cs) ("```".toList)
    simp only [List.cons_append] at hput
    simp only [fenceTail, List.cons_append]
    rw [jsonFenceFree, hput, jsonPrefix_and_false h.1]
    simpa [fenceTail] using ih h.2

lemma scanFenceF_nil : ∀ (fuel : Nat) (b : Bool), scanFenceF fuel b [] = [] := by
  intro fuel b; cases fuel <;> rfl

lemma scanFenceF_ticks : ∀ fuel, 1 ≤ fuel → scanFenceF fuel true ("```".toList) = [] := by
  intro fuel hf
  obtain ⟨f, rfl⟩ : ∃ f, fuel = f + 1 := ⟨fuel - 1, by omega⟩
  have hpre : ("```".toList.isPrefixOf ("```".toList)) = true := by decide
  simp [scanFenceF, hpre, scanFenceF_nil]

lemma scanFenceF_tail {cs : List Char} {b : Bool} (h : fenceFree b cs = true) :
    ∀ fuel, cs.length + 2 ≤ fuel →
      scanFenceF fuel b (cs ++ fenceTail) = cs ++ ['\n'] := by
  induction cs generalizing b with
  | nil =>
    intro fuel hf
    obtain ⟨f, rfl⟩ : ∃ f, fuel = f + 1 := ⟨fuel - 1, by omega⟩
    simp only [List.nil_append, fenceTail, scanFenceF]
    rw [show (b && "```".toList.isPrefixOf ('\n' :: "```".toList)) = false from by
      cases b <;> decide]
    simp only [Bool.false_eq_true, if_false]
    rw [show (('\n' : Char) == '\n') = true from by decide]
    rw [scanFenceF_ticks f (by omega)]
  | cons c cs ih =>
    intro fuel hf
    obtain ⟨f, rfl⟩ : ∃ f, fuel = f + 1 := ⟨fuel - 1, by omega⟩
    rw [fenceFree, Bool.and_eq_true, Bool.not_eq_true'] at h
    have hput := isPrefixOf_append_of_ne "```".toList '\n'
      (by decide) (c :: cs) ("```".toList)
    simp only [List.cons_append] at hput
    have hstep : (b && "```".toList.isPrefixOf (c :: (cs ++ fenceTail))) = false := by
      rw [show (c :: (cs ++ fenceTail)) = c :: cs ++ '\n' :: "```".toList from by
        simp [fenceTail]]
      simp only [List.cons_append, hput]
      exact h.1
    simp only [List.cons_append, scanFenceF, hstep]
    simp only [Bool.false_eq_true, if_false]
    rw [ih h.2 f (by simpa using Nat.le_of_succ_le_succ hf)]

/-- Running the first fence substitution over the whole ```json-wrapped
text: the opening marker and the newline after it are consumed (the greedy
`\s*` stops at the first character of `s`, which is not whitespace), the
body is left untouched, and the closing fence survives this first
substitution. -/
lemma scanJsonFenceF_wrapped (s : String) (hs : startsNonWs s = true)
    (hf : fenceFree true s.toList = true) :
    ∀ fuel, scanJsonFenceF (fuel + 1) true ((wrapFence s).toList) =
      s.toList ++ fenceTail := by
  intro fuel
  obtain ⟨c, s2, hcons, hcw⟩ : ∃ c s2, s.toList = c :: s2 ∧ isWs c = false := by
    unfold startsNonWs at hs
    cases hsl : s.toList with
    | nil => rw [hsl] at hs; exact absurd hs (by simp)
    | cons c s2 => rw [hsl] at hs; exact ⟨c, s2, rfl, by simpa using hs⟩
  have hw : (wrapFence s).toList =
      '\x60' :: '\x60' :: '\x60' :: 'j' :: 's' :: 'o' :: 'n' :: '\n' ::
        (s.toList ++ fenceTail) := by
    have h1 : (wrapFence s).toList = ("```json\n".toList ++ s.toList) ++ "\n```".toList :=
      rfl
    rw [h1, List.append_assoc]
    rfl
  rw [hw, hcons]
  have hpj : ("```json".toList.isPrefixOf
      ('\x60' :: '\x60' :: '\x60' :: 'j' :: 's' :: 'o' :: 'n' :: '\n' ::
        (c :: s2 ++ fenceTail))) = true := by
    simp [List.isPrefixOf]
  simp only [scanJsonFenceF, hpj, Bool.and_self, if_true]
  simp only [List.drop_succ_cons, List.drop_zero]
  rw [show List.takeWhile isWs ('\n' :: (c :: s2 ++ fenceTail)) = ['\n'] from by
    simp [List.takeWhile, hcw, show isWs '\n' = true from by decide]]
  rw [show List.dropWhile isWs ('\n' :: (c :: s2 ++ fenceTail)) = c :: s2 ++ fenceTail from by
    simp [List.dropWhile, hcw, show isWs '\n' = true from by decide]]
  rw [show ((['\n'] : List Char).getLast? == some '\n') = true from by decide]
  have hjf : jsonFenceFree true (c :: s2 ++ fenceTail) = true := by
    rw [← hcons]; exact jsonFenceFree_append_tail hf
  have := scanJsonFenceF_id' hjf fuel
  simpa using this

/-- Stripping is unaffected by one trailing newline. -/
lemma pyStripL_append_newline (cs : List Char) :
    pyStripL (cs ++ ['\n']) = pyStripL cs := by
  unfold pyStripL
  rw [List.dropWhile_append]
  by_cases he : (cs.dropWhile isWs).isEmpty = true
  · have h0 : List.dropWhile isWs cs = [] := by
      cases hx : List.dropWhile isWs cs with
      | nil => rfl
      | cons a l => rw [hx] at he; simp at he
    simp [he, h0, show List.dropWhile isWs ['\n'] = [] from by decide]
  · simp only [he, Bool.false_eq_true, if_false, eq_self_iff_true]
    rw [List.reverse_append]
    simp [List.dropWhile, show isWs '\n' = true from by decide]

/-- Claim C9. A response that parses to a JSON object parses identically when
wrapped in a ```json code fence: the fence-cleanup substitutions remove the
wrapper and leave the body intact.  The side conditions hold of any
serialized JSON object: it contains no reasoning-trace marker (nor does its
wrapping), none of its lines starts with a code fence, and it starts with a
non-whitespace character (its opening brace). -/
theorem C9_fence_wrapped_parses_same (s : String) (kvs : List (String × Json))
    (hjson : clean_and_parse_json s = some (Json.obj kvs))
    (hthink : thinkFree s.toList = true)
    (hthinkW : thinkFree (wrapFence s).toList = true)
    (hfence : fenceFree true s.toList = true)
    (hstart : startsNonWs s = true) :
    clean_and_parse_json (wrapFence s) = clean_and_parse_json s := by
  have hLw := scanJsonFenceF_wrapped s hstart hfence ((wrapFence s).toList.length)
  have hLf := scanFenceF_tail hfence ((s.toList ++ fenceTail).length + 1)
    (by simp [fenceTail])
  simp only [clean_and_parse_json]
  rw [removeThinkF_id hthinkW, removeThinkF_id hthink]
  rw [hLw, hLf, pyStripL_append_newline]
  rw [scanJsonFenceF_id' (jsonFenceFree_of_fenceFree hfence),
    scanFenceF_id hfence]

/-- Witness for C9: the object `\x7b"a": 1\x7d` parses to the same value
wrapped or unwrapped. -/
theorem C9_witness :
    clean_and_parse_json (wrapFence "\x7b\"a\": 1\x7d") =
      clean_and_parse_json "\x7b\"a\": 1\x7d" ∧
    clean_and_parse_json "\x7b\"a\": 1\x7d" = some (Json.obj [("a", Json.num 1)]) :=
  ⟨C9_fence_wrapped_parses_same "\x7b\"a\": 1\x7d" [("a", Json.num 1)]
      (by rfl) (by decide) (by decide) (by decide) (by decide),
   by rfl⟩

end SearchService
